import Mathlib

/-!
Verification of `italia/httpclient-lib-go`.

The repository ships two variants of the HTTP client (the current
`httpclient.go` and a legacy variant); both are embedded below.  The four
status-helper functions (`statusOK`, `statusNotFound`,
`statusTooManyRequests`, `statusForbidden`) live in a source file that is
not available; they are modelled from the spec (§4.2 Status Classifiers and
the terminal-branch descriptions in §4.1).

The HTTP transport is modelled as an oracle: a function from the attempt
index to the outcome of that attempt (request-construction failure,
transport failure, or a response).  Sleeps performed by the classifiers and
the header sets attached to each outgoing request are recorded as ghost
trace fields of the result, so that "no sleep" and "header attached on
every attempt" claims are statable.
-/

namespace Httpclient

/-- `ResponseStatus` from the source: a status line and an integer code. -/
structure ResponseStatus where
  text : String
  code : Int
  deriving Repr, DecidableEq

/-- A header list: ordered (name, value) pairs; `Header.Add` appends. -/
abbrev Headers := List (String × String)

/-- `HTTPResponse` wraps body, Status and Headers (source `httpclient.go`,
lines 13-18).  `Body` and `Headers` are `nil`-able in Go, hence `Option`. -/
structure HTTPResponse where
  body : Option (List Nat)
  status : ResponseStatus
  headers : Option Headers
  deriving Repr, DecidableEq

/-- A server response as seen by the client: status code, status line, body
bytes, response headers, and the retry-hint information the classifiers
read (spec §4.2): `hintBad` means a retry-hint header is present but
unparsable (the classifier then fails with message `hintMsg`), `hint` is a
parsed retry-hint duration when one is present. -/
structure Resp where
  statusCode : Int
  statusText : String
  body : List Nat
  headers : Headers
  hintBad : Bool
  hintMsg : String
  hint : Option ℚ
  deriving Repr, DecidableEq

/-- Outcome of one attempt of the transport oracle: request construction
fails with an error message, the send fails with an error message, or a
response arrives. -/
inductive Outcome where
  | buildErr (msg : String)
  | transErr (msg : String)
  | resp (r : Resp)
  deriving Repr, DecidableEq

/-- The transport oracle: the outcome of the i-th attempt. -/
abbrev Oracle := Nat → Outcome

/-- Modelled from the spec: `backoffSeconds` (§4.3), the exact rational
value of the backoff formula `(2 ^ attempts - 1) / 2`.  The classifiers
record this as the ghost sleep duration (§4.2).  The source function
`expBackoffCalc` computes this formula in float64; see `expBackoffCalc`
below for the embedding of that computation. -/
def backoffSeconds (attempts : Int) : ℚ :=
  ((2 : ℚ) ^ attempts - 1) / 2

/-- A float64 value in this development: a finite value, represented
exactly as a rational, or positive infinity (the only special value the
computation below can produce). -/
inductive F64 where
  | finite (val : ℚ)
  | inf
  deriving Repr, DecidableEq

/-- Round a rational to the nearest integer, ties to even — the IEEE-754
default rounding used by Go float64 arithmetic. -/
def roundTiesEven (x : ℚ) : Int :=
  if x - ⌊x⌋ < 1 / 2 then ⌊x⌋
  else if 1 / 2 < x - ⌊x⌋ then ⌊x⌋ + 1
  else if ⌊x⌋ % 2 = 0 then ⌊x⌋ else ⌊x⌋ + 1

/-- Ascending search for the binade exponent: the largest `e` with
`2 ^ e ≤ q`. -/
def floorLog2Asc : Nat → Nat → ℚ → Nat
  | 0, e, _ => e
  | fuel + 1, e, q => if q < 2 ^ (e + 1) then e else floorLog2Asc fuel (e + 1) q

/-- The binade exponent of `q` (correct for `1 ≤ q < 2 ^ 1101`, which
covers every value rounded in this development). -/
def floorLog2 (q : ℚ) : Nat := floorLog2Asc 1100 0 q

/-- Round a non-negative rational to the nearest float64: scale into the
53-bit mantissa of the binade of `q`, round ties to even, scale back;
results of `2 ^ 1024` or more overflow to +Inf.  Faithful on the normal
range (every value rounded in this development is 0 or at least 1). -/
def roundF64 (q : ℚ) : F64 :=
  if q = 0 then F64.finite 0
  else
    let e := floorLog2 q
    let m := roundTiesEven (q * 2 ^ 52 / 2 ^ e)
    let r := (m : ℚ) * 2 ^ e / 2 ^ 52
    if (2 : ℚ) ^ 1024 ≤ r then F64.inf else F64.finite r

/-- `math.Pow(2, float64(n))` for natural `n`: powers of two are exact in
float64 up to the largest binary exponent 1023; from 1024 on the result
overflows to +Inf. -/
def floatPow2 (n : Nat) : F64 :=
  if n < 1024 then F64.finite (2 ^ n) else F64.inf

/-- `expBackoffCalc` (source, lines 138-140): the float64 computation
`(math.Pow(2, float64(attempts)) - 1) / 2`.  The subtraction rounds to the
nearest float64 (ties to even, `+Inf - 1 = +Inf`); the final division by
two is exact in float64 on this range (it only decrements the exponent),
so it is taken exactly. -/
def expBackoffCalc (attempts : Nat) : F64 :=
  match floatPow2 attempts with
  | F64.inf => F64.inf
  | F64.finite p =>
      match roundF64 (p - 1) with
      | F64.inf => F64.inf
      | F64.finite s => F64.finite (s / 2)

/-- Modelled from the spec: the error side of the status classifiers
`statusTooManyRequests` / `statusForbidden` (§4.2, not under src/): the
error is non-nil exactly when the retry hint is present but unparsable. -/
def classifyErr (r : Resp) : Option String :=
  if r.hintBad then some r.hintMsg else none

/-- Modelled from the spec: the duration a classifier sleeps (§4.2): the
parsed retry hint when present, otherwise the exponential backoff for the
current attempt count. -/
def classifySleep (r : Resp) (attempts : Nat) : ℚ :=
  match r.hint with
  | some d => d
  | none => backoffSeconds attempts

/-- Modelled from the spec: the shared shape of `statusTooManyRequests` and
`statusForbidden` (§4.2, not under src/): `classify(response, attempts)`
returns `attempts + 1` together with the (possibly nil) error; the sleep it
performs is reported as the third component (ghost). -/
def classify (r : Resp) (attempts : Nat) : Nat × Option String × ℚ :=
  (attempts + 1, classifyErr r, classifySleep r attempts)

/-- Modelled from the spec: `statusOK` / `statusNotFound` (§4.1 f, not
under src/): drain the body and return
`{body, status: {text: status-line, code}, headers}` with nil error. -/
def statusTerminal (r : Resp) : HTTPResponse × Option String :=
  (⟨some r.body, ⟨r.statusText, r.statusCode⟩, some r.headers⟩, none)

/-- The `-1`-coded error envelope returned on construction/transport/
classifier failure (source, lines 49-53, 64-68, 91-95, 104-108). -/
def errEnvelope (msg URL : String) : HTTPResponse :=
  ⟨none, ⟨msg ++ URL, -1⟩, none⟩

/-- The envelope returned when the loop exits with the attempt budget
exhausted (source, lines 116-120). -/
def exhaustEnvelope (URL : String) : HTTPResponse :=
  ⟨none, ⟨"Invalid Status Code: " ++ URL, -1⟩, none⟩

/-- Building the outgoing request's header list (source, lines 56-59): the
request starts with no headers and every caller-supplied entry is added in
order (`Header.Add` appends, it does not replace). -/
def setHeaders (hs : Headers) : Headers :=
  hs.foldl (fun acc kv => acc ++ [kv]) []

/-- Result of a `Request` run: the envelope and error actually returned,
plus ghost traces — the sleeps performed, the header lists attached to the
requests that were handed to the transport, and the number of transport
attempts consumed. -/
structure ReqResult where
  resp : HTTPResponse
  err : Option String
  sleeps : List ℚ
  sent : List Headers
  consumed : Nat
  deriving Repr, DecidableEq

/-- The retry loop of `Request` in the current variant (`httpclient.go`,
lines 45-113).  One iteration: build the request (construction failure
returns the error envelope at once), attach the caller headers, send
(transport failure returns the error envelope at once), then classify the
status: 2xx and 404 are terminal with nil error; 429 and 403 run the
classifier, which sleeps and yields `attempts + 1` (a classifier error
returns the error envelope at once); every iteration that falls through
the branches additionally runs the unconditional `expBackoffAttempts += 1`.
The final return's `err` is the function-scope `err` declared at line 38:
every assignment inside the loop targets the loop-local `err` introduced by
`req, err := ...` (Go short-variable-declaration scoping), and any non-nil
error returns out of the loop immediately, so the exhaustion return always
carries a nil error. -/
def requestLoop (events : Oracle) (URL : String) (hs : Headers)
    (iter attempts : Nat) (sleeps : List ℚ) (sent : List Headers) :
    ReqResult :=
  if attempts < 8 then
    match events iter with
    | .buildErr msg => ⟨errEnvelope msg URL, some msg, sleeps, sent, iter + 1⟩
    | .transErr msg =>
        ⟨errEnvelope msg URL, some msg, sleeps, sent ++ [setHeaders hs], iter + 1⟩
    | .resp r =>
        let sent' := sent ++ [setHeaders hs]
        if 200 ≤ r.statusCode ∧ r.statusCode ≤ 299 then
          ⟨(statusTerminal r).1, (statusTerminal r).2, sleeps, sent', iter + 1⟩
        else if r.statusCode = 404 then
          ⟨(statusTerminal r).1, (statusTerminal r).2, sleeps, sent', iter + 1⟩
        else if r.statusCode = 429 then
          match classifyErr r with
          | some msg => ⟨errEnvelope msg URL, some msg, sleeps, sent', iter + 1⟩
          | none =>
              requestLoop events URL hs (iter + 1) (attempts + 1 + 1)
                (sleeps ++ [classifySleep r attempts]) sent'
        else if r.statusCode = 403 then
          match classifyErr r with
          | some msg => ⟨errEnvelope msg URL, some msg, sleeps, sent', iter + 1⟩
          | none =>
              requestLoop events URL hs (iter + 1) (attempts + 1 + 1)
                (sleeps ++ [classifySleep r attempts]) sent'
        else
          requestLoop events URL hs (iter + 1) (attempts + 1) sleeps sent'
  else
    ⟨exhaustEnvelope URL, none, sleeps, sent, iter⟩
  termination_by 8 - attempts

/-- `Request` in the current variant (`httpclient.go`, lines 34-121). -/
def Request (events : Oracle) (URL : String) (hs : Headers) : ReqResult :=
  requestLoop events URL hs 0 0 [] []

/-! ### The legacy variant -/

/-- The fixed User-Agent product token of the legacy variant. -/
def userAgent : String := "Golang_italia_backend_bot"

/-- Go map lookup `headers[k]`: the stored value, or `""` when absent. -/
def lookupD (hs : Headers) (k : String) : String :=
  match hs.find? (fun kv => kv.1 == k) with
  | some kv => kv.2
  | none => ""

/-- The legacy variant's package-level `version` update (legacy source,
lines 68-70): a non-empty `version` entry of the caller's header map
overwrites the package-level variable, otherwise it is left alone. -/
def updateVersion (hs : Headers) (ver : String) : String :=
  if lookupD hs "version" ≠ "" then lookupD hs "version" else ver

/-- The header list the legacy variant attaches to an outgoing request
(legacy source, lines 63-73): the caller's headers followed by
`User-Agent: userAgent + "/" + version`. -/
def legacyHeaders (hs : Headers) (ver : String) : Headers :=
  setHeaders hs ++ [("User-Agent", userAgent ++ "/" ++ ver)]

/-- The retry loop of the legacy variant's `Request` (legacy source, lines
52-126).  Differences from the current variant: the package-level `version`
variable is threaded as explicit state and a User-Agent header is attached;
only 200 and 201 are terminal successes (not all of 2xx); there is NO
unconditional `expBackoffAttempts += 1` at the end of the loop body, so an
unclassified status leaves the counter unchanged and the loop can run
forever — hence the fuel parameter, with `none` meaning "still looping
after `fuel` iterations". -/
def legacyLoop (events : Oracle) (URL : String) (hs : Headers) :
    Nat → String → Nat → Nat → List ℚ → List Headers →
    Option (ReqResult × String)
  | 0, _, _, _, _, _ => none
  | fuel + 1, ver, iter, attempts, sleeps, sent =>
    if attempts < 8 then
      match events iter with
      | .buildErr msg =>
          some (⟨errEnvelope msg URL, some msg, sleeps, sent, iter + 1⟩, ver)
      | .transErr msg =>
          let ver' := updateVersion hs ver
          some (⟨errEnvelope msg URL, some msg, sleeps,
                 sent ++ [legacyHeaders hs ver'], iter + 1⟩, ver')
      | .resp r =>
          let ver' := updateVersion hs ver
          let sent' := sent ++ [legacyHeaders hs ver']
          if r.statusCode = 200 then
            some (⟨(statusTerminal r).1, (statusTerminal r).2, sleeps, sent',
                   iter + 1⟩, ver')
          else if r.statusCode = 201 then
            some (⟨(statusTerminal r).1, (statusTerminal r).2, sleeps, sent',
                   iter + 1⟩, ver')
          else if r.statusCode = 404 then
            some (⟨(statusTerminal r).1, (statusTerminal r).2, sleeps, sent',
                   iter + 1⟩, ver')
          else if r.statusCode = 429 then
            match classifyErr r with
            | some msg =>
                some (⟨errEnvelope msg URL, some msg, sleeps, sent',
                       iter + 1⟩, ver')
            | none =>
                legacyLoop events URL hs fuel ver' (iter + 1) (attempts + 1)
                  (sleeps ++ [classifySleep r attempts]) sent'
          else if r.statusCode = 403 then
            match classifyErr r with
            | some msg =>
                some (⟨errEnvelope msg URL, some msg, sleeps, sent',
                       iter + 1⟩, ver')
            | none =>
                legacyLoop events URL hs fuel ver' (iter + 1) (attempts + 1)
                  (sleeps ++ [classifySleep r attempts]) sent'
          else
            legacyLoop events URL hs fuel ver' (iter + 1) attempts sleeps sent'
    else
      some (⟨exhaustEnvelope URL, none, sleeps, sent, iter⟩, ver)

/-- The legacy variant's `Request` (legacy source, lines 41-134), with the
incoming package-level `version` state threaded explicitly; the returned
`String` is the `version` state after the call. -/
def legacyRequest (fuel : Nat) (events : Oracle) (URL : String)
    (hs : Headers) (ver : String) : Option (ReqResult × String) :=
  legacyLoop events URL hs fuel ver 0 0 [] []

/-! ### The Link-header utility -/

/-- A parsed link: a URL and its relation. -/
structure Link where
  url : String
  rel : String
  deriving Repr, DecidableEq

/-- Split a character list at every occurrence of `sep` (the separator is
dropped; n separators yield n+1 chunks, like Go's `strings.Split`). -/
def splitChars (sep : Char) (cs : List Char) : List (List Char) :=
  match cs with
  | [] => [[]]
  | c :: rest =>
    let r := splitChars sep rest
    if c = sep then [] :: r
    else
      match r with
      | h :: t => (c :: h) :: t
      | [] => [[c]]

/-- Split a string at every occurrence of the character `sep`. -/
def strSplit (sep : Char) (s : String) : List String :=
  (splitChars sep s.data).map fun cs => ⟨cs⟩

/-- Drop leading and trailing spaces and tabs. -/
def strTrim (s : String) : String :=
  ⟨((s.data.dropWhile fun c => c == ' ' || c == '\t').reverse.dropWhile
      fun c => c == ' ' || c == '\t').reverse⟩

/-- Does the string start with the character `c`? -/
def strStarts (c : Char) (s : String) : Bool :=
  match s.data with
  | c' :: _ => c' == c
  | [] => false

/-- Does the string end with the character `c`? -/
def strEnds (c : Char) (s : String) : Bool :=
  match s.data.getLast? with
  | some c' => c' == c
  | none => false

/-- Strip one leading and one trailing double quote. -/
def stripQuotes (s : String) : String :=
  let s1 : String := if strStarts '"' s then ⟨s.data.drop 1⟩ else s
  if strEnds '"' s1 then ⟨s1.data.dropLast⟩ else s1

/-- The `rel` value among a segment's `key=value` parameters ("" if none). -/
def segmentRel (params : List String) : String :=
  match params.filterMap (fun p =>
    match strSplit '=' p with
    | [k, v] => if strTrim k = "rel" then some (stripQuotes (strTrim v)) else none
    | _ => none) with
  | rel :: _ => rel
  | [] => ""

/-- Parse one comma-separated segment: `<url>; key=value; ...`.  A segment
whose first part is not of the form `<...>` is dropped. -/
def parseSegment (seg : String) : Option Link :=
  match strSplit ';' seg with
  | [] => none
  | urlPart :: params =>
    let u := strTrim urlPart
    if strStarts '<' u && strEnds '>' u then
      some ⟨⟨(u.data.drop 1).dropLast⟩, segmentRel params⟩
    else none

/-- Modelled from the spec: the external `linkheader.Parse` (the
`tomnomnom/linkheader` dependency, not part of this repository): parse an
RFC5988-style `Link` header value into relation→URL pairs; malformed
segments are dropped, malformed input yields the empty list (§4.4). -/
def linkheaderParse (h : String) : List Link :=
  (strSplit ',' h).filterMap parseSegment

/-- The lookup loop of `HeaderLink` (source, lines 128-134): return the URL
of the first parsed link whose relation matches, else `""`. -/
def headerLinkFind : List Link → String → String
  | [], _ => ""
  | l :: ls, command => if l.rel = command then l.url else headerLinkFind ls command

/-- `HeaderLink` (source, lines 125-135). -/
def HeaderLink (linkHeader command : String) : String :=
  headerLinkFind (linkheaderParse linkHeader) command

/-- A plain server response with the given status code, no retry hint. -/
def plainResp (c : Int) : Resp :=
  ⟨c, "status", [], [], false, "", none⟩

/-- A retry-eligible transport outcome: a response with status 429 or 403
whose retry hint (if any) the classifier can process. -/
def retryEligible (o : Outcome) : Prop :=
  ∃ r, o = Outcome.resp r ∧ (r.statusCode = 429 ∨ r.statusCode = 403) ∧
    r.hintBad = false

/-- An unclassified transport outcome: a response whose status code is
handled by none of the explicit branches (not 2xx, not 404/429/403). -/
def unclassifiedEvt (o : Outcome) : Prop :=
  ∃ r, o = Outcome.resp r ∧ ¬(200 ≤ r.statusCode ∧ r.statusCode ≤ 299) ∧
    r.statusCode ≠ 404 ∧ r.statusCode ≠ 429 ∧ r.statusCode ≠ 403

/-- A transport that answers every attempt with a plain response of the
given status code. -/
def constOracle (c : Int) : Oracle := fun _ => Outcome.resp (plainResp c)

/-- A transport that yields exactly 8 retry-eligible (429) responses and
then plain 500 responses — no success anywhere. -/
def mixedOracle : Oracle := fun i =>
  if i < 8 then Outcome.resp (plainResp 429) else Outcome.resp (plainResp 500)

/-! ### Helper lemmas -/

lemma exhaustion_branch (events : Oracle) (URL : String) (hs : Headers)
    (iter a : Nat) (s : List ℚ) (sent : List Headers) (h : 8 ≤ a) :
    requestLoop events URL hs iter a s sent =
      ⟨exhaustEnvelope URL, none, s, sent, iter⟩ := by
  rw [requestLoop.eq_def]
  simp [Nat.not_lt.mpr h]

lemma retry_step (events : Oracle) (URL : String) (hs : Headers)
    (iter a : Nat) (s : List ℚ) (sent : List Headers) (r : Resp)
    (ha : a < 8) (hev : events iter = .resp r)
    (hc : r.statusCode = 429 ∨ r.statusCode = 403) (hb : r.hintBad = false) :
    requestLoop events URL hs iter a s sent =
      requestLoop events URL hs (iter + 1) (a + 1 + 1)
        (s ++ [classifySleep r a]) (sent ++ [setHeaders hs]) := by
  rw [requestLoop.eq_def]
  rcases hc with hc | hc <;> simp [ha, hev, hc, classifyErr, hb]

lemma unclass_step (events : Oracle) (URL : String) (hs : Headers)
    (iter a : Nat) (s : List ℚ) (sent : List Headers) (r : Resp)
    (ha : a < 8) (hev : events iter = .resp r)
    (h2xx : ¬(200 ≤ r.statusCode ∧ r.statusCode ≤ 299))
    (h404 : r.statusCode ≠ 404) (h429 : r.statusCode ≠ 429)
    (h403 : r.statusCode ≠ 403) :
    requestLoop events URL hs iter a s sent =
      requestLoop events URL hs (iter + 1) (a + 1) s (sent ++ [setHeaders hs]) := by
  rw [requestLoop.eq_def]
  simp [ha, hev, h2xx, h404, h429, h403]

lemma requestLoop_inv (events : Oracle) (URL : String) (hs : Headers) :
    ∀ iter a s sent,
      ((requestLoop events URL hs iter a s sent).err ≠ none →
        (requestLoop events URL hs iter a s sent).resp.status.code = -1) ∧
      ((requestLoop events URL hs iter a s sent).resp.status.code ≠ -1 →
        (requestLoop events URL hs iter a s sent).err = none ∧
        ∃ i r, events i = Outcome.resp r ∧
          r.statusCode = (requestLoop events URL hs iter a s sent).resp.status.code) := by
  intro iter a s sent
  induction iter, a, s, sent using requestLoop.induct events URL hs with
  | case1 iter a s sent ha msg hev =>
      rw [requestLoop.eq_def]; simp [ha, hev, errEnvelope]
  | case2 iter a s sent ha msg hev =>
      rw [requestLoop.eq_def]; simp [ha, hev, errEnvelope]
  | case3 iter a s sent ha r hev hcode =>
      rw [requestLoop.eq_def]
      simp [ha, hev, hcode, statusTerminal]
      exact fun _ => ⟨iter, r, hev, rfl⟩
  | case4 iter a s sent ha r hev hno2xx h404 =>
      rw [requestLoop.eq_def]
      simp [ha, hev, hno2xx, h404, statusTerminal]
      exact ⟨iter, r, hev, h404⟩
  | case5 iter a s sent ha r hev hno2xx h404 h429 msg hcl =>
      rw [requestLoop.eq_def]; simp [ha, hev, hno2xx, h404, h429, hcl, errEnvelope]
  | case6 iter a s sent ha r hev sentP hno2xx h404 h429 hcl ih =>
      rw [retry_step events URL hs iter a s sent r ha hev (Or.inl h429)
        (by simpa [classifyErr] using hcl)]
      exact ih
  | case7 iter a s sent ha r hev hno2xx h404 h429 h403 msg hcl =>
      rw [requestLoop.eq_def]; simp [ha, hev, hno2xx, h404, h429, h403, hcl, errEnvelope]
  | case8 iter a s sent ha r hev sentP hno2xx h404 h429 h403 hcl ih =>
      rw [retry_step events URL hs iter a s sent r ha hev (Or.inr h403)
        (by simpa [classifyErr] using hcl)]
      exact ih
  | case9 iter a s sent ha r hev sentP hno2xx h404 h429 h403 ih =>
      rw [unclass_step events URL hs iter a s sent r ha hev hno2xx h404 h429 h403]
      exact ih
  | case10 iter a s sent ha =>
      rw [requestLoop.eq_def]; simp [ha, exhaustEnvelope]

lemma unclass_exhaust (events : Oracle) (URL : String) (hs : Headers)
    (h : ∀ i, unclassifiedEvt (events i)) :
    ∀ n iter a s sent, a + n = 8 →
      requestLoop events URL hs iter a s sent =
        ⟨exhaustEnvelope URL, none, s, sent ++ List.replicate n (setHeaders hs),
          iter + n⟩ := by
  intro n
  induction n with
  | zero =>
      intro iter a s sent ha
      rw [exhaustion_branch events URL hs iter a s sent (by omega)]
      simp
  | succ n ih =>
      intro iter a s sent ha
      obtain ⟨r, hev, h2, h4, h9, h3⟩ := h iter
      rw [unclass_step events URL hs iter a s sent r (by omega) hev h2 h4 h9 h3]
      rw [ih (iter + 1) (a + 1) s (sent ++ [setHeaders hs]) (by omega)]
      simp [List.replicate_succ, List.append_assoc]
      omega

lemma legacy_unclass_none (events : Oracle) (URL : String) (hs : Headers)
    (h : ∀ i, unclassifiedEvt (events i)) :
    ∀ fuel ver iter a s sent, a < 8 →
      legacyLoop events URL hs fuel ver iter a s sent = none := by
  intro fuel
  induction fuel with
  | zero => intro ver iter a s sent ha; rfl
  | succ fuel ih =>
      intro ver iter a s sent ha
      obtain ⟨r, hev, h2, h4, h9, h3⟩ := h iter
      have h200 : r.statusCode ≠ 200 := fun hc => h2 (by rw [hc]; norm_num)
      have h201 : r.statusCode ≠ 201 := fun hc => h2 (by rw [hc]; norm_num)
      simp only [legacyLoop]
      simp [ha, hev, h200, h201, h4, h9, h3]
      exact ih _ (iter + 1) a s _ ha

lemma mem_snoc_prop {α : Type} (P : α → Prop) (xs : List α) (x : α)
    (hxs : ∀ y ∈ xs, P y) (hx : P x) : ∀ y ∈ xs ++ [x], P y := by
  intro y hy
  rcases List.mem_append.mp hy with hy | hy
  · exact hxs y hy
  · rw [List.mem_singleton.mp hy]; exact hx

lemma requestLoop_sent (events : Oracle) (URL : String) (hs : Headers) :
    ∀ iter a s sent, (∀ h ∈ sent, h = setHeaders hs) →
      ∀ h ∈ (requestLoop events URL hs iter a s sent).sent, h = setHeaders hs := by
  intro iter a s sent
  induction iter, a, s, sent using requestLoop.induct events URL hs with
  | case1 iter a s sent ha msg hev =>
      intro hacc
      rw [requestLoop.eq_def]; simp only [ha, if_true, hev]
      exact hacc
  | case2 iter a s sent ha msg hev =>
      intro hacc
      rw [requestLoop.eq_def]; simp only [ha, if_true, hev]
      exact mem_snoc_prop _ sent _ hacc rfl
  | case3 iter a s sent ha r hev hcode =>
      intro hacc
      rw [requestLoop.eq_def]; simp only [ha, if_true, hev]
      simp only [hcode, if_true]
      exact mem_snoc_prop _ sent _ hacc rfl
  | case4 iter a s sent ha r hev hno2xx h404 =>
      intro hacc
      rw [requestLoop.eq_def]; simp only [ha, if_true, hev]
      simp only [hno2xx, h404, if_false, if_true]
      exact mem_snoc_prop _ sent _ hacc rfl
  | case5 iter a s sent ha r hev hno2xx h404 h429 msg hcl =>
      intro hacc
      rw [requestLoop.eq_def]; simp only [ha, if_true, hev]
      simp only [hno2xx, h404, h429, hcl, if_false, if_true]
      exact mem_snoc_prop _ sent _ hacc rfl
  | case6 iter a s sent ha r hev sentP hno2xx h404 h429 hcl ih =>
      intro hacc
      rw [retry_step events URL hs iter a s sent r ha hev (Or.inl h429)
        (by simpa [classifyErr] using hcl)]
      exact ih (mem_snoc_prop _ sent _ hacc rfl)
  | case7 iter a s sent ha r hev hno2xx h404 h429 h403 msg hcl =>
      intro hacc
      rw [requestLoop.eq_def]; simp only [ha, if_true, hev]
      simp only [hno2xx, h404, h429, h403, hcl, if_false, if_true]
      exact mem_snoc_prop _ sent _ hacc rfl
  | case8 iter a s sent ha r hev sentP hno2xx h404 h429 h403 hcl ih =>
      intro hacc
      rw [retry_step events URL hs iter a s sent r ha hev (Or.inr h403)
        (by simpa [classifyErr] using hcl)]
      exact ih (mem_snoc_prop _ sent _ hacc rfl)
  | case9 iter a s sent ha r hev sentP hno2xx h404 h429 h403 ih =>
      intro hacc
      rw [unclass_step events URL hs iter a s sent r ha hev hno2xx h404 h429 h403]
      exact ih (mem_snoc_prop _ sent _ hacc rfl)
  | case10 iter a s sent ha =>
      intro hacc
      rw [requestLoop.eq_def]; simp only [if_neg ha]
      exact hacc

lemma headerLinkFind_absent : ∀ (ls : List Link) (c : String),
    (∀ l ∈ ls, l.rel ≠ c) → headerLinkFind ls c = "" := by
  intro ls c h
  induction ls with
  | nil => rfl
  | cons l ls ih =>
      show (if l.rel = c then l.url else headerLinkFind ls c) = ""
      rw [if_neg (h l (List.mem_cons_self l ls))]
      exact ih fun l' hl' => h l' (List.mem_cons_of_mem l hl')

lemma headerLinkFind_found : ∀ (ls : List Link) (c : String) (l : Link),
    ls.find? (fun l' => l'.rel == c) = some l → headerLinkFind ls c = l.url := by
  intro ls c l h
  induction ls with
  | nil => simp [List.find?] at h
  | cons x ls ih =>
      by_cases hx : x.rel = c
      · have hb : (x.rel == c) = true := by simp [hx]
        simp only [List.find?_cons, hb] at h
        injection h with h
        show (if x.rel = c then x.url else headerLinkFind ls c) = l.url
        rw [if_pos hx, ← h]
      · have hb : (x.rel == c) = false := by simp [hx]
        simp only [List.find?_cons, hb] at h
        show (if x.rel = c then x.url else headerLinkFind ls c) = l.url
        rw [if_neg hx]
        exact ih h

lemma string_append_cancel (p v₁ v₂ : String) (h : p ++ v₁ = p ++ v₂) :
    v₁ = v₂ := by
  have hd := congrArg String.data h
  simp [String.data_append] at hd
  exact String.ext hd

lemma updateVersion_idem (hs : Headers) (ver : String) :
    updateVersion hs (updateVersion hs ver) = updateVersion hs ver := by
  unfold updateVersion
  by_cases h : lookupD hs "version" ≠ "" <;> simp [h]

lemma backoffSeconds_natCast (n : Nat) :
    backoffSeconds (n : Int) = ((2 : ℚ) ^ n - 1) / 2 := by
  unfold backoffSeconds
  rw [zpow_natCast]

lemma roundTiesEven_intCast (n : ℤ) : roundTiesEven (n : ℚ) = n := by
  unfold roundTiesEven
  rw [Int.floor_intCast, sub_self]
  norm_num

lemma roundTiesEven_add_half_odd (f : ℤ) (h : f % 2 = 1) :
    roundTiesEven ((f : ℚ) + 1 / 2) = f + 1 := by
  have hhalf : ⌊(1 / 2 : ℚ)⌋ = 0 := by
    rw [Int.floor_eq_iff]
    norm_num
  have hfl : ⌊(f : ℚ) + 1 / 2⌋ = f := by
    rw [Int.floor_int_add, hhalf, add_zero]
  unfold roundTiesEven
  rw [hfl]
  have hx : (f : ℚ) + 1 / 2 - (f : ℚ) = 1 / 2 := by ring
  rw [hx]
  rw [if_neg (by norm_num), if_neg (by norm_num), if_neg (by omega)]

lemma roundTiesEven_nonneg (x : ℚ) (hx : 0 ≤ x) : 0 ≤ roundTiesEven x := by
  have hf : 0 ≤ ⌊x⌋ := Int.floor_nonneg.mpr hx
  unfold roundTiesEven
  split_ifs <;> omega

lemma floorLog2Asc_spec : ∀ (fuel e : Nat) (q : ℚ), 2 ^ e ≤ q →
    q < 2 ^ (e + fuel + 1) →
    2 ^ floorLog2Asc fuel e q ≤ q ∧ q < 2 ^ (floorLog2Asc fuel e q + 1) := by
  intro fuel
  induction fuel with
  | zero =>
      intro e q h1 h2
      exact ⟨h1, by simpa using h2⟩
  | succ fuel ih =>
      intro e q h1 h2
      by_cases hq : q < 2 ^ (e + 1)
      · rw [show floorLog2Asc (fuel + 1) e q = e from by
          simp only [floorLog2Asc, hq, if_true]]
        exact ⟨h1, hq⟩
      · simp only [floorLog2Asc, hq, if_false]
        have hE : e + 1 + fuel + 1 = e + (fuel + 1) + 1 := by omega
        exact ih (e + 1) q (not_lt.mp hq) (by rw [hE]; exact h2)

lemma floorLog2_spec (q : ℚ) (h1 : 1 ≤ q) (h2 : q < 2 ^ 1101) :
    2 ^ floorLog2 q ≤ q ∧ q < 2 ^ (floorLog2 q + 1) := by
  have h := floorLog2Asc_spec 1100 0 q (by simpa using h1) (by simpa using h2)
  simpa [floorLog2] using h

lemma floorLog2_eq (q : ℚ) (k : Nat) (hk : k ≤ 1100)
    (h1 : 2 ^ k ≤ q) (h2 : q < 2 ^ (k + 1)) : floorLog2 q = k := by
  have h1' : (1 : ℚ) ≤ q := le_trans (one_le_pow₀ (by norm_num)) h1
  have h2' : q < 2 ^ 1101 :=
    lt_of_lt_of_le h2 (pow_le_pow_right₀ (by norm_num) (by omega))
  obtain ⟨hs1, hs2⟩ := floorLog2_spec q h1' h2'
  by_contra hne
  rcases Nat.lt_or_ge (floorLog2 q) k with hlt | hge
  · have hle : (2 : ℚ) ^ (floorLog2 q + 1) ≤ 2 ^ k :=
      pow_le_pow_right₀ (by norm_num) (by omega)
    linarith
  · have hgt : k < floorLog2 q := by omega
    have hle : (2 : ℚ) ^ (k + 1) ≤ 2 ^ floorLog2 q :=
      pow_le_pow_right₀ (by norm_num) (by omega)
    linarith

lemma roundF64_nonneg (q : ℚ) (hq : 0 ≤ q) (r : ℚ)
    (h : roundF64 q = F64.finite r) : 0 ≤ r := by
  simp only [roundF64] at h
  split_ifs at h with h0 hov
  · injection h with h
    subst h
    exact le_refl 0
  · injection h with h
    subst h
    have hm : 0 ≤ roundTiesEven (q * 2 ^ 52 / 2 ^ floorLog2 q) :=
      roundTiesEven_nonneg _ (by positivity)
    have hmq : (0 : ℚ) ≤ (roundTiesEven (q * 2 ^ 52 / 2 ^ floorLog2 q) : ℚ) := by
      exact_mod_cast hm
    exact div_nonneg (mul_nonneg hmq (by positivity)) (by positivity)

lemma roundF64_natCast_exact (z : Nat) (h1 : 1 ≤ z) (h2 : z < 2 ^ 53) :
    roundF64 (z : ℚ) = F64.finite (z : ℚ) := by
  have hq0 : (z : ℚ) ≠ 0 := by
    have hpos : (0 : ℚ) < z := by exact_mod_cast h1
    exact ne_of_gt hpos
  have hq1 : (1 : ℚ) ≤ (z : ℚ) := by exact_mod_cast h1
  have hq2 : (z : ℚ) < 2 ^ 53 := by exact_mod_cast h2
  obtain ⟨hs1, hs2⟩ := floorLog2_spec (z : ℚ) hq1
    (lt_of_lt_of_le hq2 (pow_le_pow_right₀ (by norm_num) (by norm_num)))
  have he53 : floorLog2 (z : ℚ) < 53 :=
    (pow_lt_pow_iff_right₀ (by norm_num : (1 : ℚ) < 2)).mp (lt_of_le_of_lt hs1 hq2)
  have hpow : (2 : ℚ) ^ 52 = 2 ^ floorLog2 (z : ℚ) * 2 ^ (52 - floorLog2 (z : ℚ)) := by
    rw [← pow_add]
    congr 1
    omega
  have hscaled : (z : ℚ) * 2 ^ 52 / 2 ^ floorLog2 (z : ℚ) =
      (((z * 2 ^ (52 - floorLog2 (z : ℚ)) : ℕ) : ℤ) : ℚ) := by
    push_cast
    rw [hpow]
    field_simp
    ring
  have hr : ((((z * 2 ^ (52 - floorLog2 (z : ℚ)) : ℕ) : ℤ) : ℚ)) *
      2 ^ floorLog2 (z : ℚ) / 2 ^ 52 = (z : ℚ) := by
    push_cast
    rw [hpow]
    field_simp
    ring
  simp only [roundF64]
  rw [if_neg hq0, hscaled, roundTiesEven_intCast, hr]
  rw [if_neg (not_le.mpr (lt_of_lt_of_le hq2 (pow_le_pow_right₀ (by norm_num) (by norm_num))))]

lemma roundF64_two_pow54_sub_one :
    roundF64 ((2 : ℚ) ^ 54 - 1) = F64.finite (2 ^ 54) := by
  have hq0 : ((2 : ℚ) ^ 54 - 1) ≠ 0 := by norm_num
  have he : floorLog2 ((2 : ℚ) ^ 54 - 1) = 53 :=
    floorLog2_eq _ 53 (by norm_num) (by norm_num) (by norm_num)
  have hscaled : ((2 : ℚ) ^ 54 - 1) * 2 ^ 52 / 2 ^ 53 =
      ((2 ^ 53 - 1 : ℤ) : ℚ) + 1 / 2 := by
    push_cast
    ring
  have hodd : (2 ^ 53 - 1 : ℤ) % 2 = 1 := by norm_num
  have hr : ((2 ^ 53 - 1 + 1 : ℤ) : ℚ) * 2 ^ 53 / 2 ^ 52 = 2 ^ 54 := by
    push_cast
    ring
  simp only [roundF64]
  rw [if_neg hq0, he, hscaled, roundTiesEven_add_half_odd _ hodd, hr]
  rw [if_neg (not_le.mpr (by norm_num : (2 : ℚ) ^ 54 < 2 ^ 1024))]

lemma expBackoffCalc_exact (n : Nat) (hn : n < 54) :
    expBackoffCalc n = F64.finite (((2 : ℚ) ^ n - 1) / 2) := by
  have hfp : floatPow2 n = F64.finite (2 ^ n) := by
    simp only [floatPow2]
    rw [if_pos (by omega : n < 1024)]
  rcases Nat.eq_zero_or_pos n with h0 | hpos
  · subst h0
    have hround : roundF64 ((2 : ℚ) ^ 0 - 1) = F64.finite 0 := by
      rw [show ((2 : ℚ) ^ 0 - 1) = 0 by norm_num]
      simp [roundF64]
    simp only [expBackoffCalc, hfp, hround]
    norm_num
  · have h2n : 2 ≤ 2 ^ n := by
      calc 2 = 2 ^ 1 := by norm_num
      _ ≤ 2 ^ n := Nat.pow_le_pow_right (by norm_num) hpos
    have hlt : 2 ^ n - 1 < 2 ^ 53 := by
      have hle : 2 ^ n ≤ 2 ^ 53 := Nat.pow_le_pow_right (by norm_num) (by omega)
      omega
    have hcast : ((2 ^ n - 1 : ℕ) : ℚ) = (2 : ℚ) ^ n - 1 := by
      rw [Nat.cast_sub (by omega)]
      push_cast
      ring
    have hround : roundF64 ((2 : ℚ) ^ n - 1) = F64.finite ((2 : ℚ) ^ n - 1) := by
      rw [← hcast]
      exact roundF64_natCast_exact (2 ^ n - 1) (by omega) hlt
    simp only [expBackoffCalc, hfp, hround]

lemma legacyLoop_run (events : Oracle) (URL : String) (hs : Headers) :
    ∀ fuel ver iter a s sent res,
      legacyLoop events URL hs fuel ver iter a s sent = some res →
      (∃ t, res.1.sent = sent ++ t ∧ ∀ h ∈ t, ∃ v, h = legacyHeaders hs v) ∧
      (res.2 = ver ∨ res.2 = updateVersion hs ver) := by
  intro fuel
  induction fuel with
  | zero =>
      intro ver iter a s sent res h
      simp [legacyLoop] at h
  | succ fuel ih =>
      intro ver iter a s sent res h
      by_cases ha : a < 8
      · simp only [legacyLoop, ha, if_true] at h
        cases hev : events iter with
        | buildErr msg =>
            simp only [hev, Option.some.injEq] at h
            subst h
            exact ⟨⟨[], by simp⟩, Or.inl rfl⟩
        | transErr msg =>
            simp only [hev, Option.some.injEq] at h
            subst h
            exact ⟨⟨[legacyHeaders hs (updateVersion hs ver)], by simp,
              by intro x hx; rw [List.mem_singleton.mp hx]; exact ⟨_, rfl⟩⟩,
              Or.inr rfl⟩
        | resp r =>
            simp only [hev] at h
            split_ifs at h with h200 h201 h404 h429 h403
            · simp only [Option.some.injEq] at h
              subst h
              exact ⟨⟨[legacyHeaders hs (updateVersion hs ver)], by simp,
                by intro x hx; rw [List.mem_singleton.mp hx]; exact ⟨_, rfl⟩⟩,
                Or.inr rfl⟩
            · simp only [Option.some.injEq] at h
              subst h
              exact ⟨⟨[legacyHeaders hs (updateVersion hs ver)], by simp,
                by intro x hx; rw [List.mem_singleton.mp hx]; exact ⟨_, rfl⟩⟩,
                Or.inr rfl⟩
            · simp only [Option.some.injEq] at h
              subst h
              exact ⟨⟨[legacyHeaders hs (updateVersion hs ver)], by simp,
                by intro x hx; rw [List.mem_singleton.mp hx]; exact ⟨_, rfl⟩⟩,
                Or.inr rfl⟩
            · rcases hcb : classifyErr r with _ | m
              · rw [hcb] at h
                obtain ⟨⟨t, ht, hT⟩, hv⟩ := ih _ _ _ _ _ _ h
                refine ⟨⟨legacyHeaders hs (updateVersion hs ver) :: t, ?_, ?_⟩, ?_⟩
                · rw [ht]; simp
                · intro x hx
                  rcases List.mem_cons.mp hx with hx | hx
                  · exact ⟨_, hx⟩
                  · exact hT x hx
                · right
                  rcases hv with hv | hv
                  · exact hv
                  · rw [hv, updateVersion_idem]
              · rw [hcb] at h
                simp only [Option.some.injEq] at h
                subst h
                exact ⟨⟨[legacyHeaders hs (updateVersion hs ver)], by simp,
                  by intro x hx; rw [List.mem_singleton.mp hx]; exact ⟨_, rfl⟩⟩,
                  Or.inr rfl⟩
            · rcases hcb : classifyErr r with _ | m
              · rw [hcb] at h
                obtain ⟨⟨t, ht, hT⟩, hv⟩ := ih _ _ _ _ _ _ h
                refine ⟨⟨legacyHeaders hs (updateVersion hs ver) :: t, ?_, ?_⟩, ?_⟩
                · rw [ht]; simp
                · intro x hx
                  rcases List.mem_cons.mp hx with hx | hx
                  · exact ⟨_, hx⟩
                  · exact hT x hx
                · right
                  rcases hv with hv | hv
                  · exact hv
                  · rw [hv, updateVersion_idem]
              · rw [hcb] at h
                simp only [Option.some.injEq] at h
                subst h
                exact ⟨⟨[legacyHeaders hs (updateVersion hs ver)], by simp,
                  by intro x hx; rw [List.mem_singleton.mp hx]; exact ⟨_, rfl⟩⟩,
                  Or.inr rfl⟩
            · obtain ⟨⟨t, ht, hT⟩, hv⟩ := ih _ _ _ _ _ _ h
              refine ⟨⟨legacyHeaders hs (updateVersion hs ver) :: t, ?_, ?_⟩, ?_⟩
              · rw [ht]; simp
              · intro x hx
                rcases List.mem_cons.mp hx with hx | hx
                · exact ⟨_, hx⟩
                · exact hT x hx
              · right
                rcases hv with hv | hv
                · exact hv
                · rw [hv, updateVersion_idem]
      · simp only [legacyLoop, ha, if_false, Option.some.injEq] at h
        subst h
        exact ⟨⟨[], by simp⟩, Or.inl rfl⟩

lemma legacyRequest_first (events : Oracle) (URL : String) (hs : Headers)
    (ver : String) (fuel : Nat) (res : ReqResult × String)
    (hb : ∀ m, events 0 ≠ .buildErr m)
    (h : legacyRequest (fuel + 1) events URL hs ver = some res) :
    res.2 = updateVersion hs ver ∧
    res.1.sent.head? = some (legacyHeaders hs (updateVersion hs ver)) := by
  unfold legacyRequest at h
  have h08 : (0 : Nat) < 8 := by norm_num
  cases hev : events 0 with
  | buildErr msg => exact absurd hev (hb msg)
  | transErr msg =>
      simp only [legacyLoop, h08, if_true, hev, Option.some.injEq] at h
      subst h
      exact ⟨rfl, rfl⟩
  | resp r =>
      simp only [legacyLoop, h08, if_true, hev] at h
      split_ifs at h with h200 h201 h404 h429 h403
      · simp only [Option.some.injEq] at h; subst h; exact ⟨rfl, rfl⟩
      · simp only [Option.some.injEq] at h; subst h; exact ⟨rfl, rfl⟩
      · simp only [Option.some.injEq] at h; subst h; exact ⟨rfl, rfl⟩
      · rcases hcb : classifyErr r with _ | m
        · rw [hcb] at h
          obtain ⟨⟨t, ht, hT⟩, hv⟩ := legacyLoop_run events URL hs _ _ _ _ _ _ _ h
          constructor
          · rcases hv with hv | hv
            · exact hv
            · rw [hv, updateVersion_idem]
          · rw [ht]; rfl
        · rw [hcb] at h
          simp only [Option.some.injEq] at h; subst h; exact ⟨rfl, rfl⟩
      · rcases hcb : classifyErr r with _ | m
        · rw [hcb] at h
          obtain ⟨⟨t, ht, hT⟩, hv⟩ := legacyLoop_run events URL hs _ _ _ _ _ _ _ h
          constructor
          · rcases hv with hv | hv
            · exact hv
            · rw [hv, updateVersion_idem]
          · rw [ht]; rfl
        · rw [hcb] at h
          simp only [Option.some.injEq] at h; subst h; exact ⟨rfl, rfl⟩
      · obtain ⟨⟨t, ht, hT⟩, hv⟩ := legacyLoop_run events URL hs _ _ _ _ _ _ _ h
        constructor
        · rcases hv with hv | hv
          · exact hv
          · rw [hv, updateVersion_idem]
        · rw [ht]; rfl


/-! ### Claim theorems -/

/-- Claim C1, counterexample: with a transport that yields exactly 8
retry-eligible 429 responses (and unclassified 500 responses, never a
success, after them), `Request` of the current variant returns status code
-1 together with a NIL error — not the non-nil error the claim asserts —
and it consumes only 4 of the 8 responses, because each retry-eligible
response costs two attempt units (the classifier increment plus the
unconditional loop increment). -/
theorem eight_retries_nil_error :
    (Request mixedOracle "https://u" []).err = none ∧
    (Request mixedOracle "https://u" []).resp.status.code = -1 ∧
    (Request mixedOracle "https://u" []).consumed = 4 := by
  refine ⟨?_, ?_, ?_⟩ <;>
    simp [Request, requestLoop, mixedOracle, plainResp, classifyErr,
      classifySleep, errEnvelope, exhaustEnvelope, statusTerminal, setHeaders]

/-- Claim C1, amended: when every attempt meets a retry-eligible (429/403,
processable hint) response and no success, `Request` exhausts the 8-unit
attempt budget after consuming only 4 responses and returns the exhaustion
envelope — status text "Invalid Status Code: " + URL, code -1 — with a NIL
error (the loop-local Go `err` shadows the returned one, and every non-nil
error would have returned early anyway). -/
theorem retry_exhaustion (events : Oracle) (URL : String) (hs : Headers)
    (h : ∀ i, i < 4 → retryEligible (events i)) :
    (Request events URL hs).resp = exhaustEnvelope URL ∧
    (Request events URL hs).err = none ∧
    (Request events URL hs).consumed = 4 := by
  obtain ⟨r0, he0, hc0, hb0⟩ := h 0 (by norm_num)
  obtain ⟨r1, he1, hc1, hb1⟩ := h 1 (by norm_num)
  obtain ⟨r2, he2, hc2, hb2⟩ := h 2 (by norm_num)
  obtain ⟨r3, he3, hc3, hb3⟩ := h 3 (by norm_num)
  have e : Request events URL hs =
      ⟨exhaustEnvelope URL, none,
        [classifySleep r0 0, classifySleep r1 2, classifySleep r2 4,
          classifySleep r3 6],
        [setHeaders hs, setHeaders hs, setHeaders hs, setHeaders hs], 4⟩ := by
    unfold Request
    rw [retry_step events URL hs 0 0 [] [] r0 (by norm_num) he0 hc0 hb0]
    norm_num
    rw [retry_step events URL hs 1 2 _ _ r1 (by norm_num) he1 hc1 hb1]
    norm_num
    rw [retry_step events URL hs 2 4 _ _ r2 (by norm_num) he2 hc2 hb2]
    norm_num
    rw [retry_step events URL hs 3 6 _ _ r3 (by norm_num) he3 hc3 hb3]
    norm_num
    rw [exhaustion_branch events URL hs 4 8 _ _ (by norm_num)]
  rw [e]
  exact ⟨rfl, rfl, rfl⟩

/-- Witness for `retry_exhaustion`: an all-429 transport satisfies the
hypothesis, and the run indeed ends with a nil error. -/
theorem retry_exhaustion_witness :
    (∀ i, i < 4 → retryEligible (constOracle 429 i)) ∧
    (Request (constOracle 429) "https://u" []).err = none := by
  have hyp : ∀ i, i < 4 → retryEligible (constOracle 429 i) :=
    fun i _ => ⟨plainResp 429, rfl, Or.inl rfl, rfl⟩
  exact ⟨hyp, (retry_exhaustion (constOracle 429) "https://u" [] hyp).2.1⟩

/-- Claim C2, counterexample: a run of unclassified 500 responses exhausts
the attempt budget and returns code -1 with a NIL error, refuting the
direction "code = -1 implies the error is non-nil" of the claimed
invariant. -/
theorem code_neg_one_nil_error :
    (Request (constOracle 500) "https://u" []).resp.status.code = -1 ∧
    (Request (constOracle 500) "https://u" []).err = none := by
  refine ⟨?_, ?_⟩ <;>
    simp [Request, requestLoop, constOracle, plainResp, errEnvelope,
      exhaustEnvelope, statusTerminal, setHeaders]

/-- Claim C2, amended: a non-nil error always comes with code -1, and any
code other than -1 comes with a nil error and equals the status code of an
actual server response seen by some attempt; code -1 with a NIL error also
occurs (attempt exhaustion), so the claimed "iff" holds only in the
error-to-code direction. -/
theorem code_error_invariant (events : Oracle) (URL : String) (hs : Headers) :
    ((Request events URL hs).err ≠ none →
      (Request events URL hs).resp.status.code = -1) ∧
    ((Request events URL hs).resp.status.code ≠ -1 →
      (Request events URL hs).err = none ∧
      ∃ i r, events i = Outcome.resp r ∧
        r.statusCode = (Request events URL hs).resp.status.code) :=
  requestLoop_inv events URL hs 0 0 [] []

/-- Witness for `code_error_invariant`: at an all-200 transport the code is
not -1 and the theorem yields a nil error. -/
theorem code_error_invariant_witness :
    (Request (constOracle 200) "https://u" []).err = none := by
  refine ((code_error_invariant (constOracle 200) "https://u" []).2 ?_).1
  simp [Request, requestLoop, constOracle, plainResp, statusTerminal, setHeaders]

/-- Claim C3, counterexample: in the legacy variant an unclassified status
(500) does not consume any attempt, so the loop never terminates: after 20
iterations — far beyond the claimed bound of 8 — it is still running. -/
theorem legacy_unclassified_loops :
    legacyRequest 20 (constOracle 500) "https://u" [] "0.0.1_local" = none := by
  rfl

/-- Claim C3, amended: in the current variant an unclassified status
consumes exactly one attempt and continues with no backoff sleep, and an
infinite stream of unclassified responses terminates after exactly 8
iterations with the AttemptsExhausted envelope (and an empty sleep trace);
in the legacy variant an unclassified status consumes no attempt and the
loop never terminates, whatever fuel it is observed for. -/
theorem unclassified_budget :
    (∀ (events : Oracle) (URL : String) (hs : Headers) (iter a : Nat)
      (s : List ℚ) (sent : List Headers) (r : Resp),
      a < 8 → events iter = .resp r →
      ¬(200 ≤ r.statusCode ∧ r.statusCode ≤ 299) → r.statusCode ≠ 404 →
      r.statusCode ≠ 429 → r.statusCode ≠ 403 →
      requestLoop events URL hs iter a s sent =
        requestLoop events URL hs (iter + 1) (a + 1) s (sent ++ [setHeaders hs])) ∧
    (∀ (events : Oracle) (URL : String) (hs : Headers),
      (∀ i, unclassifiedEvt (events i)) →
      Request events URL hs =
        ⟨exhaustEnvelope URL, none, [], List.replicate 8 (setHeaders hs), 8⟩) ∧
    (∀ (events : Oracle) (URL : String) (hs : Headers) (fuel : Nat) (ver : String),
      (∀ i, unclassifiedEvt (events i)) →
      legacyRequest fuel events URL hs ver = none) := by
  refine ⟨?_, ?_, ?_⟩
  · intro events URL hs iter a s sent r ha hev h2 h4 h9 h3
    exact unclass_step events URL hs iter a s sent r ha hev h2 h4 h9 h3
  · intro events URL hs h
    have e := unclass_exhaust events URL hs h 8 0 0 [] [] (by norm_num)
    simpa [Request] using e
  · intro events URL hs fuel ver h
    exact legacy_unclass_none events URL hs h fuel ver 0 0 [] [] (by norm_num)

/-- Witness for `unclassified_budget`: the all-500 transport satisfies the
hypothesis and the current variant exhausts in 8 attempts. -/
theorem unclassified_budget_witness :
    Request (constOracle 500) "https://u" [] =
      ⟨exhaustEnvelope "https://u", none, [], List.replicate 8 (setHeaders []), 8⟩ :=
  unclassified_budget.2.1 (constOracle 500) "https://u" []
    (fun i => ⟨plainResp 500, rfl, by decide, by decide, by decide, by decide⟩)

/-- Claim C4, counterexample: the float64 computation departs from the
claimed formula: at attempts = 54 it returns `2 ^ 53` — the subtraction
`2 ^ 54 - 1` rounds up to `2 ^ 54` under round-to-nearest-even — and not
`(2 ^ 54 - 1) / 2`; and from attempts = 1024 the power overflows to +Inf,
where the function plateaus and is not strictly increasing. -/
theorem backoff_float_rounding :
    expBackoffCalc 54 = F64.finite (2 ^ 53) ∧
    (2 ^ 53 : ℚ) ≠ ((2 : ℚ) ^ 54 - 1) / 2 ∧
    expBackoffCalc 1024 = F64.inf ∧
    expBackoffCalc 1025 = F64.inf := by
  refine ⟨?_, by norm_num, ?_, ?_⟩
  · have hfp : floatPow2 54 = F64.finite (2 ^ 54) := by
      simp only [floatPow2]
      rw [if_pos (by norm_num)]
    simp only [expBackoffCalc, hfp, roundF64_two_pow54_sub_one]
    norm_num
  · simp [expBackoffCalc, floatPow2]
  · simp [expBackoffCalc, floatPow2]

/-- Claim C4, amended: the calculator computes `(2 ^ attempts - 1) / 2`
in float64.  For attempts 0..53 the computation is exact and returns the
formula value `backoffSeconds attempts` — in particular 0 at 0 and
127.5 = 255/2 at 8 — and it is strictly increasing on that range, which
covers the entire reachable range 0..8; every finite value it returns is
non-negative.  Beyond attempts = 53 float64 rounding departs from the
formula, and from 1024 the value is +Inf. -/
theorem backoff_float_contract :
    (∀ n : Nat, n < 54 → expBackoffCalc n = F64.finite (backoffSeconds n)) ∧
    expBackoffCalc 0 = F64.finite 0 ∧
    expBackoffCalc 8 = F64.finite (255 / 2) ∧
    (∀ (n : Nat) (q : ℚ), expBackoffCalc n = F64.finite q → 0 ≤ q) ∧
    (∀ a b : Nat, a < b → b < 54 → ∀ qa qb,
      expBackoffCalc a = F64.finite qa → expBackoffCalc b = F64.finite qb →
      qa < qb) := by
  refine ⟨?_, ?_, ?_, ?_, ?_⟩
  · intro n hn
    rw [expBackoffCalc_exact n hn, backoffSeconds_natCast]
  · rw [expBackoffCalc_exact 0 (by norm_num)]
    norm_num
  · rw [expBackoffCalc_exact 8 (by norm_num)]
    norm_num
  · intro n q h
    by_cases hn : n < 1024
    · have hfp : floatPow2 n = F64.finite (2 ^ n) := by
        simp only [floatPow2]
        rw [if_pos hn]
      rcases hround : roundF64 ((2 : ℚ) ^ n - 1) with s | _
      · simp only [expBackoffCalc, hfp, hround] at h
        injection h with h
        subst h
        have hs : 0 ≤ s := roundF64_nonneg ((2 : ℚ) ^ n - 1)
          (by have h1 : (1 : ℚ) ≤ 2 ^ n := one_le_pow₀ (by norm_num); linarith)
          s hround
        positivity
      · simp only [expBackoffCalc, hfp, hround] at h
        exact F64.noConfusion h
    · have hfp : floatPow2 n = F64.inf := by
        simp only [floatPow2]
        rw [if_neg hn]
      simp only [expBackoffCalc, hfp] at h
      exact F64.noConfusion h
  · intro a b hab hb qa qb ha' hb'
    rw [expBackoffCalc_exact a (by omega)] at ha'
    rw [expBackoffCalc_exact b hb] at hb'
    injection ha' with ha'
    injection hb' with hb'
    subst ha'
    subst hb'
    have hpow : (2 : ℚ) ^ a < 2 ^ b :=
      pow_lt_pow_right₀ (by norm_num) hab
    linarith

/-- Witness for `backoff_float_contract` at attempts 3 and 8. -/
theorem backoff_float_contract_witness :
    expBackoffCalc 3 = F64.finite (backoffSeconds 3) ∧
    (0 : ℚ) ≤ 255 / 2 ∧
    (7 / 2 : ℚ) < 255 / 2 := by
  have h3 : expBackoffCalc 3 = F64.finite (7 / 2) := by
    rw [backoff_float_contract.1 3 (by norm_num)]
    norm_num [backoffSeconds]
  have h8 : expBackoffCalc 8 = F64.finite (255 / 2) := backoff_float_contract.2.2.1
  refine ⟨backoff_float_contract.1 3 (by norm_num), ?_, ?_⟩
  · exact backoff_float_contract.2.2.2.1 8 (255 / 2) h8
  · exact backoff_float_contract.2.2.2.2 3 8 (by norm_num) (by norm_num)
      (7 / 2) (255 / 2) h3 h8

/-- Claim C5, counterexample: status 202 lies in [200, 299], yet the legacy
variant does not return on it at all (only 200 and 201 are terminal there):
20 iterations in, the loop is still running, refuting "returns immediately
on that attempt" for every 2xx. -/
theorem legacy_202_not_terminal :
    legacyRequest 20 (constOracle 202) "https://u" [] "0.0.1_local" = none := by
  rfl

/-- Claim C5, amended: in the current variant every first-attempt response
with status in [200, 299] returns immediately — one attempt consumed, no
sleep, nil error, the real status code and headers; in the legacy variant
the same holds exactly for status 200 and 201. -/
theorem success_immediate :
    (∀ (events : Oracle) (URL : String) (hs : Headers) (r : Resp),
      events 0 = .resp r → 200 ≤ r.statusCode → r.statusCode ≤ 299 →
      Request events URL hs =
        ⟨⟨some r.body, ⟨r.statusText, r.statusCode⟩, some r.headers⟩, none,
          [], [setHeaders hs], 1⟩) ∧
    (∀ (events : Oracle) (URL : String) (hs : Headers) (ver : String)
      (fuel : Nat) (r : Resp),
      events 0 = .resp r → (r.statusCode = 200 ∨ r.statusCode = 201) →
      legacyRequest (fuel + 1) events URL hs ver =
        some (⟨⟨some r.body, ⟨r.statusText, r.statusCode⟩, some r.headers⟩, none,
          [], [legacyHeaders hs (updateVersion hs ver)], 1⟩,
          updateVersion hs ver)) := by
  constructor
  · intro events URL hs r hev hlo hhi
    unfold Request
    rw [requestLoop.eq_def]
    simp [hev, hlo, hhi, statusTerminal]
  · intro events URL hs ver fuel r hev hc
    unfold legacyRequest
    simp only [legacyLoop]
    rcases hc with hc | hc <;> simp [hev, hc, statusTerminal]

/-- Witness for `success_immediate`: a 204 first response returns at once in
the current variant, a 200 first response in the legacy variant. -/
theorem success_immediate_witness :
    Request (constOracle 204) "https://u" [] =
      ⟨⟨some [], ⟨"status", 204⟩, some []⟩, none, [], [setHeaders []], 1⟩ ∧
    legacyRequest 1 (constOracle 200) "https://u" [] "1.0.0" =
      some (⟨⟨some [], ⟨"status", 200⟩, some []⟩, none, [],
        [legacyHeaders [] (updateVersion [] "1.0.0")], 1⟩,
        updateVersion [] "1.0.0") :=
  ⟨success_immediate.1 (constOracle 204) "https://u" [] (plainResp 204) rfl
      (by decide) (by decide),
    success_immediate.2 (constOracle 200) "https://u" [] "1.0.0" 0 (plainResp 200)
      rfl (Or.inl rfl)⟩

/-- Claim C6: a request-construction failure and a transport failure each
return immediately with body nil, headers nil, status text equal to the
error message concatenated with the URL, code -1, and the non-nil error;
exactly one transport attempt index is consumed (consumed = iter + 1), so
neither failure is ever retried. -/
theorem fatal_not_retried (events : Oracle) (URL : String) (hs : Headers)
    (iter a : Nat) (s : List ℚ) (sent : List Headers) (msg : String)
    (ha : a < 8) :
    (events iter = .buildErr msg →
      requestLoop events URL hs iter a s sent =
        ⟨errEnvelope msg URL, some msg, s, sent, iter + 1⟩) ∧
    (events iter = .transErr msg →
      requestLoop events URL hs iter a s sent =
        ⟨errEnvelope msg URL, some msg, s, sent ++ [setHeaders hs], iter + 1⟩) := by
  constructor <;> intro hev <;> rw [requestLoop.eq_def] <;> simp [ha, hev]

/-- Witness for `fatal_not_retried`: a construction failure on the first
attempt returns the error envelope with no retries. -/
theorem fatal_not_retried_witness :
    requestLoop (fun _ => Outcome.buildErr "no such host ") "https://u" [] 0 0 [] [] =
      ⟨errEnvelope "no such host " "https://u", some "no such host ", [], [], 1⟩ :=
  (fatal_not_retried (fun _ => Outcome.buildErr "no such host ") "https://u" []
    0 0 [] [] "no such host " (by norm_num)).1 rfl

/-- Claim C7: when the retry loop exits because the attempt counter reached
8 without a terminal result, both variants return body nil, headers nil,
status text "Invalid Status Code: " + URL, code -1, and a nil error — which
is the last error observed in the loop, since any non-nil error observed
inside the loop returns immediately through a different branch. -/
theorem attempts_exhausted_return :
    (∀ (events : Oracle) (URL : String) (hs : Headers) (iter a : Nat)
      (s : List ℚ) (sent : List Headers), 8 ≤ a →
      requestLoop events URL hs iter a s sent =
        ⟨exhaustEnvelope URL, none, s, sent, iter⟩) ∧
    (∀ (events : Oracle) (URL : String) (hs : Headers) (fuel : Nat)
      (ver : String) (iter a : Nat) (s : List ℚ) (sent : List Headers), 8 ≤ a →
      legacyLoop events URL hs (fuel + 1) ver iter a s sent =
        some (⟨exhaustEnvelope URL, none, s, sent, iter⟩, ver)) := by
  constructor
  · exact fun events URL hs iter a s sent h =>
      exhaustion_branch events URL hs iter a s sent h
  · intro events URL hs fuel ver iter a s sent h
    simp only [legacyLoop, Nat.not_lt.mpr h, if_false]

/-- Witness for `attempts_exhausted_return` at counter value 8. -/
theorem attempts_exhausted_return_witness :
    requestLoop (constOracle 500) "https://u" [] 3 8 [] [] =
      ⟨exhaustEnvelope "https://u", none, [], [], 3⟩ :=
  attempts_exhausted_return.1 (constOracle 500) "https://u" [] 3 8 [] []
    (by norm_num)

/-- Claim C8, counterexample: the current variant attaches NO User-Agent
header: the one request it sends carries exactly the caller-supplied
headers and no entry with key "User-Agent". -/
theorem modern_no_user_agent :
    (Request (constOracle 200) "https://u" [("Accept", "application.json")]).sent =
      [[("Accept", "application.json")]] ∧
    (Request (constOracle 200) "https://u"
        [("Accept", "application.json")]).sent.all
      (fun hdr => hdr.all fun p => !(p.1 == "User-Agent")) = true := by
  refine ⟨?_, ?_⟩ <;>
    simp [Request, requestLoop, constOracle, plainResp, statusTerminal, setHeaders]

/-- Claim C8, amended: in the legacy variant every request handed to the
transport carries, after the caller-supplied headers, a User-Agent header
whose value is the constant product token followed by "/" and a version
string; the current variant attaches exactly the caller-supplied headers
and nothing else. -/
theorem user_agent_policy :
    (∀ (events : Oracle) (URL : String) (hs : Headers),
      ∀ h ∈ (Request events URL hs).sent, h = setHeaders hs) ∧
    (∀ (events : Oracle) (URL : String) (hs : Headers) (fuel : Nat)
      (ver : String) (res : ReqResult × String),
      legacyRequest fuel events URL hs ver = some res →
      ∀ h ∈ res.1.sent,
        ∃ v, h = setHeaders hs ++ [("User-Agent", userAgent ++ "/" ++ v)]) := by
  constructor
  · intro events URL hs
    exact requestLoop_sent events URL hs 0 0 [] [] (by simp)
  · intro events URL hs fuel ver res h hh hmem
    obtain ⟨⟨t, ht, hT⟩, _⟩ := legacyLoop_run events URL hs fuel ver 0 0 [] [] res h
    rw [ht] at hmem
    simp only [List.nil_append] at hmem
    obtain ⟨v, hv⟩ := hT hh hmem
    exact ⟨v, by rw [hv]; rfl⟩

/-- Witness for `user_agent_policy`: a completed legacy run sent exactly one
request, whose header list ends with the User-Agent entry. -/
theorem user_agent_policy_witness :
    ∃ v, [("User-Agent", userAgent ++ "/" ++ "1.2.3")] =
      setHeaders [] ++ [("User-Agent", userAgent ++ "/" ++ v)] :=
  user_agent_policy.2 (constOracle 200) "https://u" [] 1 "1.2.3"
    (⟨⟨some [], ⟨"status", 200⟩, some []⟩, none, [],
      [[("User-Agent", userAgent ++ "/" ++ "1.2.3")]], 1⟩, "1.2.3") (by rfl)
    [("User-Agent", userAgent ++ "/" ++ "1.2.3")] (List.mem_singleton.mpr rfl)

/-- Claim C9: `HeaderLink` parses the link header and returns the URL of the
requested relation — on the example header it returns the next and prev
URLs, the empty string for an absent relation and for unparsable input; in
general a relation absent from the parse yields "" and a found relation
yields the URL of its first match, and the function is total (it never
errors). -/
theorem headerLink_contract :
    HeaderLink "<https://x/2>; rel=\"next\", <https://x/1>; rel=\"prev\"" "next" =
      "https://x/2" ∧
    HeaderLink "<https://x/2>; rel=\"next\", <https://x/1>; rel=\"prev\"" "prev" =
      "https://x/1" ∧
    HeaderLink "<https://x/2>; rel=\"next\", <https://x/1>; rel=\"prev\"" "last" =
      "" ∧
    HeaderLink "not a link header" "next" = "" ∧
    (∀ h c, (∀ l ∈ linkheaderParse h, l.rel ≠ c) → HeaderLink h c = "") ∧
    (∀ h c l, (linkheaderParse h).find? (fun l' => l'.rel == c) = some l →
      HeaderLink h c = l.url) := by
  refine ⟨by decide, by decide, by decide, by decide, ?_, ?_⟩
  · intro h c hab
    exact headerLinkFind_absent _ c hab
  · intro h c l hf
    exact headerLinkFind_found _ c l hf

/-- Witness for `headerLink_contract`: a missing relation gives "", a found
one gives its URL. -/
theorem headerLink_contract_witness :
    HeaderLink "<https://x/2>; rel=\"next\"" "missing" = "" ∧
    HeaderLink "<https://x/2>; rel=\"next\"" "next" = "https://x/2" := by
  constructor
  · exact headerLink_contract.2.2.2.2.1 "<https://x/2>; rel=\"next\"" "missing"
      (by decide)
  · exact headerLink_contract.2.2.2.2.2 "<https://x/2>; rel=\"next\"" "next"
      ⟨"https://x/2", "next"⟩ (by decide)

/-- Claim C10: in the legacy variant, a call whose header map carries a
non-empty "version" entry overwrites the package-level version state (the
state a run returns equals that entry); and two runs with identical
arguments but different incoming version state attach different User-Agent
headers on their first attempt — the header-driven side channel the claim
describes. -/
theorem version_side_channel :
    (∀ (hs : Headers) (ver : String), lookupD hs "version" ≠ "" →
      updateVersion hs ver = lookupD hs "version") ∧
    (∀ (events : Oracle) (URL : String) (hs : Headers) (ver x : String)
      (fuel : Nat) (res : ReqResult × String),
      lookupD hs "version" = x → x ≠ "" → (∀ m, events 0 ≠ .buildErr m) →
      legacyRequest (fuel + 1) events URL hs ver = some res → res.2 = x) ∧
    (∀ (events : Oracle) (URL : String) (hs : Headers) (ver₁ ver₂ : String)
      (fuel : Nat) (res₁ res₂ : ReqResult × String),
      lookupD hs "version" = "" → ver₁ ≠ ver₂ → (∀ m, events 0 ≠ .buildErr m) →
      legacyRequest (fuel + 1) events URL hs ver₁ = some res₁ →
      legacyRequest (fuel + 1) events URL hs ver₂ = some res₂ →
      res₁.1.sent.head? = some (legacyHeaders hs ver₁) ∧
      res₂.1.sent.head? = some (legacyHeaders hs ver₂) ∧
      res₁.1.sent.head? ≠ res₂.1.sent.head?) := by
  refine ⟨?_, ?_, ?_⟩
  · intro hs ver h
    unfold updateVersion
    rw [if_pos h]
  · intro events URL hs ver x fuel res hx hne hb h
    have h1 := (legacyRequest_first events URL hs ver fuel res hb h).1
    rw [h1]
    unfold updateVersion
    rw [hx, if_pos hne]
  · intro events URL hs ver₁ ver₂ fuel res₁ res₂ h0 hne hb h₁ h₂
    have u₁ : updateVersion hs ver₁ = ver₁ := by
      unfold updateVersion; rw [h0]; simp
    have u₂ : updateVersion hs ver₂ = ver₂ := by
      unfold updateVersion; rw [h0]; simp
    have f₁ := (legacyRequest_first events URL hs ver₁ fuel res₁ hb h₁).2
    have f₂ := (legacyRequest_first events URL hs ver₂ fuel res₂ hb h₂).2
    rw [u₁] at f₁
    rw [u₂] at f₂
    refine ⟨f₁, f₂, ?_⟩
    rw [f₁, f₂]
    intro hEq
    apply hne
    have hL : legacyHeaders hs ver₁ = legacyHeaders hs ver₂ :=
      Option.some.inj hEq
    unfold legacyHeaders at hL
    have hP := List.append_cancel_left hL
    have hpair : ("User-Agent", userAgent ++ "/" ++ ver₁) =
        ("User-Agent", userAgent ++ "/" ++ ver₂) := by
      injection hP with h1 h2
    have hstr : userAgent ++ "/" ++ ver₁ = userAgent ++ "/" ++ ver₂ :=
      congrArg Prod.snd hpair
    exact string_append_cancel (userAgent ++ "/") ver₁ ver₂ hstr

/-- Witness for `version_side_channel`: a call carrying version 9.9.9 in its
headers leaves the package-level state at 9.9.9. -/
theorem version_side_channel_witness :
    ((⟨⟨some [], ⟨"status", 200⟩, some []⟩, none, [],
      [legacyHeaders [("version", "9.9.9")] "9.9.9"], 1⟩,
      "9.9.9") : ReqResult × String).2 = "9.9.9" :=
  version_side_channel.2.1 (constOracle 200) "https://u" [("version", "9.9.9")]
    "0.0.1_local" "9.9.9" 0 _ rfl (by decide)
    (fun m => by simp [constOracle]) (by rfl)

end Httpclient
